import Mathlib

/-!
Verification of the analytics computation layer of the Product Analytics
Dashboard (`analytics.py`, with the funnel-bottleneck selection from
`dashboard.py`).

The event log is shallowly embedded as a `List Event`.  Timestamps are
integer day numbers (`ℤ`); calendar-month bucketing (`dt.to_period("M")`)
is abstracted as a month-assignment function `ℤ → ℤ` passed to the cohort
computation, since no verified property depends on the calendar shape.
Real arithmetic is carried out in `ℚ`; `pandas.round` is round-half-to-even.
Python's division of two ints by zero raises `ZeroDivisionError`, while
numpy-scalar float division by zero silently yields IEEE `inf`/`nan`; both
behaviours are modelled explicitly below.
-/

namespace Analytics

/-- One behavioral event record, per the repository's event schema:
`user_id`, `event_date`, `event_type`, `revenue`, `device_type`,
`acquisition_channel`, `experiment_group`, and the derived per-user
`signup_date` column. -/
structure Event where
  user_id : ℕ
  event_date : ℤ
  event_type : String
  revenue : ℚ
  device_type : String
  acquisition_channel : String
  experiment_group : String
  signup_date : ℤ
deriving DecidableEq

/-- Errors surfaced by the computations.  The repository defines no custom
error classes: `zeroDivisionError` models Python's built-in
`ZeroDivisionError` (int `/` by zero) and `valueError` models the
`ValueError` raised by the clustering library when `n_samples < n_clusters`.
The spec's own error taxonomy (`emptyInputError`, `divisionByZeroError`,
`degenerateClusteringError`) is included as constructors so that statements
about those classes can be expressed; no code path constructs them. -/
inductive PyError where
  | zeroDivisionError
  | valueError
  | emptyInputError
  | divisionByZeroError
  | degenerateClusteringError
deriving DecidableEq

/-- `Series.nunique()`: number of distinct values. -/
def nuniq {α : Type} [DecidableEq α] (l : List α) : ℕ := l.dedup.length

/-- Round to the nearest integer, ties to even (numpy/pandas semantics). -/
def roundHalfEven (q : ℚ) : ℤ :=
  let f := ⌊q⌋
  let r := q - f
  if r < 1/2 then f
  else if 1/2 < r then f + 1
  else if f % 2 = 0 then f else f + 1

/-- pandas `Series.round(1)`: one decimal place, ties to even. -/
def round1 (q : ℚ) : ℚ := (roundHalfEven (q * 10) : ℚ) / 10

/-- `.min()` of a column, `none` on an empty one. -/
def minD : List ℤ → Option ℤ
  | [] => none
  | x :: xs => match minD xs with
    | none => some x
    | some m => some (min x m)

/-- `.max()` of a column, `none` on an empty one. -/
def maxD : List ℤ → Option ℤ
  | [] => none
  | x :: xs => match maxD xs with
    | none => some x
    | some m => some (max x m)

/-- The group keys of `df.groupby("user_id")` / `df["user_id"].nunique()`:
the distinct user ids of the collection (pandas sorts group keys; only the
multiset of keys matters for every verified property). -/
def userIds (df : List Event) : List ℕ := (df.map (·.user_id)).dedup

/-- All events of one user. -/
def userEvents (df : List Event) (u : ℕ) : List Event :=
  df.filter (fun e => e.user_id = u)

/-- The `event_date` column of one user's events. -/
def userDates (df : List Event) (u : ℕ) : List ℤ :=
  (userEvents df u).map (·.event_date)

/-- `compute_conversion_rate` (analytics.py:70-76): distinct purchasers over
distinct users, times 100.  Both counts are Python `int`s, so a zero
denominator raises the built-in `ZeroDivisionError`. -/
def compute_conversion_rate (df : List Event) : Except PyError ℚ :=
  let total_users := nuniq (df.map (·.user_id))
  let converted :=
    nuniq ((df.filter (fun e => e.event_type = "purchase")).map (·.user_id))
  if total_users = 0 then .error .zeroDivisionError
  else .ok ((converted : ℚ) / (total_users : ℚ) * 100)

/-- The filter predicate of `compute_retention_rate`: the user's
`max(event_date) − min(event_date)` gap, in days, reaches the horizon. -/
def retainedB (df : List Event) (days : ℤ) (u : ℕ) : Bool :=
  match minD (userDates df u), maxD (userDates df u) with
  | some a, some b => decide (days ≤ b - a)
  | _, _ => false

/-- `compute_retention_rate` (analytics.py:79-89): share of users whose
last-activity gap from signup reaches `days`. -/
def compute_retention_rate (df : List Event) (days : ℤ) : ℚ :=
  (((userIds df).filter (retainedB df days)).length : ℚ) /
    ((userIds df).length : ℚ) * 100

/-- The churn predicate of `compute_churn_rate`: the dataset's maximal
`event_date` minus the user's last `event_date` reaches `inactive_days`. -/
def churnedB (df : List Event) (inactive_days : ℤ) (u : ℕ) : Bool :=
  match maxD (df.map (·.event_date)), maxD (userDates df u) with
  | some m, some l => decide (inactive_days ≤ m - l)
  | _, _ => false

/-- `compute_churn_rate` (analytics.py:92-100): share of users inactive for
the last `inactive_days` of the dataset (reference date = max event date). -/
def compute_churn_rate (df : List Event) (inactive_days : ℤ) : ℚ :=
  (((userIds df).filter (churnedB df inactive_days)).length : ℚ) /
    (nuniq (df.map (·.user_id)) : ℚ) * 100

/-- The ordered funnel step list (analytics.py:128). -/
def FUNNEL_STEPS : List String :=
  ["signup", "login", "view_product", "add_to_cart", "purchase"]

/-- Reach of one funnel step: distinct users with at least one event of that
type anywhere in the collection. -/
def stepUsers (df : List Event) (step : String) : ℕ :=
  nuniq ((df.filter (fun e => e.event_type = step)).map (·.user_id))

/-- One row of the funnel table.  The percentage columns are `Option ℚ`:
`none` models the IEEE `inf`/`nan` that pandas produces on a zero
denominator (row 0's pre-override `NaN` from `shift(1)` included). -/
structure FunnelRow where
  step : String
  users : ℕ
  conversion_from_prev : Option ℚ
  conversion_from_top : Option ℚ
  dropoff_pct : Option ℚ
deriving DecidableEq

instance : Inhabited FunnelRow := ⟨⟨"", 0, none, none, none⟩⟩

/-- `a / b * 100` rounded to 1 decimal; `none` when the denominator is 0. -/
def pctOfDiv (a b : ℕ) : Option ℚ :=
  if b = 0 then none else some (round1 ((a : ℚ) / (b : ℚ) * 100))

/-- The column computations of `compute_funnel` (analytics.py:143-152) on a
given `step → reach` table: `conversion_from_prev` via `shift(1)`,
`conversion_from_top` via `iloc[0]`, `dropoff_pct = (100 − prev).round(1)`,
then the row-0 overrides to `100.0` and `0.0`. -/
def funnelTable (stepCounts : List (String × ℕ)) : List FunnelRow :=
  let counts := stepCounts.map (·.2)
  (List.range stepCounts.length).map (fun i =>
    let sc := stepCounts.getD i ("", 0)
    { step := sc.1
      users := sc.2
      conversion_from_prev :=
        if i = 0 then some 100 else pctOfDiv sc.2 (counts.getD (i - 1) 0)
      conversion_from_top := pctOfDiv sc.2 (counts.getD 0 0)
      dropoff_pct :=
        if i = 0 then some 0
        else (pctOfDiv sc.2 (counts.getD (i - 1) 0)).map
          (fun x => round1 (100 - x)) })

/-- `compute_funnel` (analytics.py:130-153). -/
def compute_funnel (df : List Event) : List FunnelRow :=
  funnelTable (FUNNEL_STEPS.map (fun s => (s, stepUsers df s)))

/-- `Series.idxmax()`: the earliest index attaining the maximal value. -/
def idxmax : List (ℕ × ℚ) → Option (ℕ × ℚ)
  | [] => none
  | p :: rest => match idxmax rest with
    | none => some p
    | some q => if p.2 < q.2 then some q else some p

/-- The `(index, dropoff_pct)` candidates of `funnel_df.iloc[1:]`, indexed
from `i`; rows with index 0 or a non-numeric drop-off are skipped. -/
def dropCandidates : ℕ → List FunnelRow → List (ℕ × ℚ)
  | _, [] => []
  | i, r :: rest =>
    (match r.dropoff_pct with
      | some d => if 1 ≤ i then [(i, d)] else []
      | none => []) ++ dropCandidates (i + 1) rest

/-- `funnel_df.iloc[1:]["dropoff_pct"].idxmax()` (dashboard.py:505-509): the
first row index (excluding row 0) attaining the maximal drop-off. -/
def bottleneck (rows : List FunnelRow) : Option ℕ :=
  (idxmax (dropCandidates 0 rows)).map (·.1)

/-- The reach table of spec Scenario C: counts `[100, 80, 40, 20, 10]`. -/
def SCENARIO_C : List (String × ℕ) := FUNNEL_STEPS.zip [100, 80, 40, 20, 10]

/-- Rows of `df[df["event_type"] == "signup"]`. -/
def signupEvents (df : List Event) : List Event :=
  df.filter (fun e => e.event_type = "signup")

/-- Cohort size (analytics.py:172-177): distinct users among signup events
whose signup month is `m`, for a month assignment `monthOf`. -/
def cohortSize (monthOf : ℤ → ℤ) (df : List Event) (m : ℤ) : ℕ :=
  nuniq (((signupEvents df).filter
    (fun e => monthOf e.signup_date = m)).map (·.user_id))

/-- Active users of cohort `m` in period `p` (analytics.py:179-198):
distinct users with signup month `m` and at least one event whose month
offset from the signup month is `p`. -/
def activeUsers (monthOf : ℤ → ℤ) (df : List Event) (m p : ℤ) : ℕ :=
  nuniq ((df.filter (fun e => monthOf e.signup_date = m ∧
    monthOf e.event_date - monthOf e.signup_date = p)).map (·.user_id))

/-- One cell of the pivoted cohort retention matrix (analytics.py:200-217):
present exactly when the (cohort, period) pair survives the `period >= 0`
filter, has at least one active user, and the cohort month occurs among the
signup events (the inner merge with `cohort_sizes`). -/
def retentionCell (monthOf : ℤ → ℤ) (df : List Event) (m p : ℤ) : Option ℚ :=
  if 0 ≤ p ∧ 0 < activeUsers monthOf df m p ∧ 0 < cohortSize monthOf df m then
    some (round1 ((activeUsers monthOf df m p : ℚ) /
      (cohortSize monthOf df m : ℚ) * 100))
  else none

/-- A numpy float64 scalar: finite, `inf`, `-inf` or `nan`. -/
inductive NpFloat where
  | fin (q : ℚ)
  | inf
  | ninf
  | nan
deriving DecidableEq

/-- numpy-scalar true division: by zero it silently yields `inf`, `-inf` or
`nan` (with a RuntimeWarning) instead of raising. -/
def npDiv (a b : ℚ) : NpFloat :=
  if b = 0 then (if 0 < a then .inf else if a < 0 then .ninf else .nan)
  else .fin (a / b)

def npMul100 : NpFloat → NpFloat
  | .fin q => .fin (q * 100)
  | x => x

/-- `((rate_b - rate_a) / rate_a) * 100` (analytics.py:286) in numpy float
semantics.  A non-finite rate only arises from an empty group (then the rate
is `nan`, since conversions never exceed the group size), and `nan`
propagates through the arithmetic. -/
def liftCalc : NpFloat → NpFloat → NpFloat
  | .fin a, .fin b => npMul100 (npDiv (b - a) a)
  | _, _ => .nan

/-- The fields of `compute_ab_test`'s result that the verified claims refer
to.  The `chi2`/`p_value`/`significant` fields require scipy's chi-square
tail probability (transcendental, floating point) and influence none of the
modelled fields, so they are not carried. -/
structure AbResult where
  group_a_users : ℕ
  group_b_users : ℕ
  group_a_conversions : ℕ
  group_b_conversions : ℕ
  rate_a : NpFloat
  rate_b : NpFloat
  lift_pct : NpFloat
deriving DecidableEq

/-- The keys of `df.groupby(["user_id", "experiment_group"])`. -/
def abPairs (df : List Event) : List (ℕ × String) :=
  (df.map (fun e => (e.user_id, e.experiment_group))).dedup

/-- The per-key `converted` indicator: some event of this (user, group) key
is a purchase (analytics.py:272-274). -/
def abConverted (df : List Event) (p : ℕ × String) : Bool :=
  df.any (fun e => decide (e.user_id = p.1 ∧ e.experiment_group = p.2 ∧
    e.event_type = "purchase"))

/-- Rows of the per-user table belonging to one experiment group. -/
def abGroup (df : List Event) (g : String) : List (ℕ × String) :=
  (abPairs df).filter (fun p => p.2 = g)

def abGroupSize (df : List Event) (g : String) : ℕ := (abGroup df g).length

def abConvCount (df : List Event) (g : String) : ℕ :=
  ((abGroup df g).filter (abConverted df)).length

/-- `compute_ab_test` (analytics.py:262-306): group sizes, conversion
counts, rates (×100) and relative lift.  `conv / n` is numpy-scalar float
division (`Series.sum()` returns a numpy int64), so a zero denominator
produces `nan`/`inf` values rather than an error. -/
def compute_ab_test (df : List Event) : AbResult :=
  let n_a := abGroupSize df "A"
  let n_b := abGroupSize df "B"
  let conv_a := abConvCount df "A"
  let conv_b := abConvCount df "B"
  let rate_a := npDiv (conv_a : ℚ) (n_a : ℚ)
  let rate_b := npDiv (conv_b : ℚ) (n_b : ℚ)
  { group_a_users := n_a
    group_b_users := n_b
    group_a_conversions := conv_a
    group_b_conversions := conv_b
    rate_a := npMul100 rate_a
    rate_b := npMul100 rate_b
    lift_pct := liftCalc rate_a rate_b }

/-- Group keys of `df.groupby("user_id")` in pandas order (ascending). -/
def sortedUsers (df : List Event) : List ℕ :=
  (userIds df).insertionSort (· ≤ ·)

/-- RFM recency (analytics.py:236): days from the user's last event to the
dataset's reference date (its maximal `event_date`). -/
def recencyOf (df : List Event) (u : ℕ) : ℤ :=
  (maxD (df.map (·.event_date))).getD 0 - (maxD (userDates df u)).getD 0

/-- RFM frequency (analytics.py:237): the user's total event count. -/
def frequencyOf (df : List Event) (u : ℕ) : ℕ := (userEvents df u).length

/-- RFM monetary (analytics.py:238): the user's total revenue (summed over
all events; non-purchase rows carry revenue 0 by the data invariants). -/
def monetaryOf (df : List Event) (u : ℕ) : ℚ :=
  ((userEvents df u).map (·.revenue)).sum

def meanQ (l : List ℚ) : ℚ := l.sum / (l.length : ℚ)

/-- Population variance (`StandardScaler` uses `ddof = 0`). -/
def varPop (l : List ℚ) : ℚ :=
  ((l.map (fun x => (x - meanQ l) ^ 2)).sum) / (l.length : ℚ)

/-- Inverse-variance feature weight; a zero-variance feature keeps weight 1,
mirroring `StandardScaler`'s handling of a zero scale. -/
def invVarWeight (l : List ℚ) : ℚ := if varPop l = 0 then 1 else 1 / varPop l

/-- Squared distance between mean-centered feature triples, weighted by the
inverse feature variances — exactly the squared Euclidean distance between
the corresponding z-scored points. -/
def sqDistW (w p q : ℚ × ℚ × ℚ) : ℚ :=
  w.1 * (p.1 - q.1) ^ 2 + w.2.1 * (p.2.1 - q.2.1) ^ 2 +
    w.2.2 * (p.2.2 - q.2.2) ^ 2

/-- A linear congruential pseudo-random step (deterministic seeding). -/
def lcg (s : ℕ) : ℕ := (1103515245 * s + 12345) % 2147483648

/-- `k` seeded initial-centroid indices into a population of size `n`. -/
def initIdxs : ℕ → ℕ → ℕ → List ℕ
  | _, 0, _ => []
  | s, k + 1, n => (lcg s % n) :: initIdxs (lcg s) k n

def enumFromQ : ℕ → List ℚ → List (ℕ × ℚ)
  | _, [] => []
  | i, x :: xs => (i, x) :: enumFromQ (i + 1) xs

/-- The earliest index attaining the minimal value. -/
def idxmin : List (ℕ × ℚ) → Option (ℕ × ℚ)
  | [] => none
  | p :: rest => match idxmin rest with
    | none => some p
    | some q => if q.2 < p.2 then some q else some p

/-- Index of the nearest centroid (first on ties). -/
def assignPt (w : ℚ × ℚ × ℚ) (cs : List (ℚ × ℚ × ℚ)) (p : ℚ × ℚ × ℚ) : ℕ :=
  ((idxmin (enumFromQ 0 (cs.map (fun c => sqDistW w p c)))).map (·.1)).getD 0

def centroidOf (pts : List (ℚ × ℚ × ℚ)) : ℚ × ℚ × ℚ :=
  (meanQ (pts.map (·.1)), meanQ (pts.map (·.2.1)), meanQ (pts.map (·.2.2)))

/-- One Lloyd iteration: recompute each centroid as the mean of its assigned
points (an empty cluster keeps its centroid). -/
def kmStep (w : ℚ × ℚ × ℚ) (pts cs : List (ℚ × ℚ × ℚ)) : List (ℚ × ℚ × ℚ) :=
  (List.range cs.length).map (fun j =>
    let assigned := pts.filter (fun p => assignPt w cs p = j)
    if assigned.isEmpty then cs.getD j (0, 0, 0) else centroidOf assigned)

/-- Iterate Lloyd steps until the centroids stabilize or the iteration cap
is exhausted. -/
def kmIter (w : ℚ × ℚ × ℚ) (pts : List (ℚ × ℚ × ℚ)) :
    ℕ → List (ℚ × ℚ × ℚ) → List (ℚ × ℚ × ℚ)
  | 0, cs => cs
  | fuel + 1, cs =>
    let cs' := kmStep w pts cs
    if cs' = cs then cs else kmIter w pts fuel cs'

/-- Modelled from the spec: the external clustering call
`KMeans(n_clusters=k, random_state=seed, n_init=10).fit_predict(scaled)` —
§4.4's centroid-based procedure (seeded deterministic initialization,
iterative assign-to-nearest-centroid and centroid-mean update, iteration
cap), executed over `ℚ` on the variance-weighted geometry `sqDistW` (which
realizes the z-scored Euclidean distance exactly while staying rational;
centroid means commute with the affine feature scaling).  The library
raises `ValueError` when `n_samples < n_clusters`. -/
def kmeansFitPredict (seed k : ℕ) (pts : List (ℚ × ℚ × ℚ))
    (w : ℚ × ℚ × ℚ) : Except PyError (List ℕ) :=
  if pts.length < k then .error .valueError
  else
    let cs0 := (initIdxs seed k pts.length).map (fun i => pts.getD i (0, 0, 0))
    let cs := kmIter w pts 300 cs0
    .ok (pts.map (assignPt w cs))

/-- One output row of `compute_rfm_segments`: RFM features, numeric cluster
id, and the human-readable label (`none` models the `NaN` produced by
`Series.map` on a cluster absent from the label mapping). -/
structure RfmRow where
  user_id : ℕ
  recency : ℤ
  frequency : ℕ
  monetary : ℚ
  segment : ℕ
  segment_label : Option String
deriving DecidableEq

def rfmRecs (df : List Event) : List ℚ :=
  (sortedUsers df).map (fun u => (recencyOf df u : ℚ))

def rfmFreqs (df : List Event) : List ℚ :=
  (sortedUsers df).map (fun u => (frequencyOf df u : ℚ))

def rfmMons (df : List Event) : List ℚ := (sortedUsers df).map (monetaryOf df)

/-- The mean-centered feature triples handed to the clustering, one per
user in `sortedUsers` order. -/
def rfmPts (df : List Event) : List (ℚ × ℚ × ℚ) :=
  (List.range (sortedUsers df).length).map (fun i =>
    ((rfmRecs df).getD i 0 - meanQ (rfmRecs df),
     (rfmFreqs df).getD i 0 - meanQ (rfmFreqs df),
     (rfmMons df).getD i 0 - meanQ (rfmMons df)))

/-- The inverse-variance weights of the three RFM features. -/
def rfmW (df : List Event) : ℚ × ℚ × ℚ :=
  (invVarWeight (rfmRecs df), invVarWeight (rfmFreqs df),
    invVarWeight (rfmMons df))

/-- The cluster assignment of `compute_rfm_segments` (analytics.py:246-247),
with the fixed `random_state=42`. -/
def rfmAssignments (df : List Event) (k : ℕ) : Except PyError (List ℕ) :=
  kmeansFitPredict 42 k (rfmPts df) (rfmW df)

/-- `rfm.groupby("segment")["monetary"].mean()` for one cluster id. -/
def clusterMeanMon (assign : List ℕ) (mons : List ℚ) (c : ℕ) : ℚ :=
  meanQ (((assign.zip mons).filter (fun p => p.1 = c)).map (·.2))

/-- `...mean().sort_values(ascending=False).index` (analytics.py:252):
cluster ids ranked by mean monetary value, descending (ties in ascending id
order; the pandas sort is unstable on ties, and every verified property is
insensitive to the tie order). -/
def rankedClusters (assign : List ℕ) (mons : List ℚ) : List ℕ :=
  (assign.dedup.insertionSort (· ≤ ·)).insertionSort
    (fun a b => clusterMeanMon assign mons b ≤ clusterMeanMon assign mons a)

/-- The fixed label list (analytics.py:253). -/
def SEGMENT_LABELS : List String := ["Champions", "Loyal", "At-Risk", "Low-Value"]

/-- Association-list lookup (the dict built on analytics.py:250-255). -/
def lookupPair : List (ℕ × String) → ℕ → Option String
  | [], _ => none
  | p :: rest, c => if p.1 = c then some p.2 else lookupPair rest c

/-- The ranked cluster-id list of a successful run (empty on failure). -/
def rankedSegments (df : List Event) (k : ℕ) : List ℕ :=
  match rfmAssignments df k with
  | .ok assign => rankedClusters assign (rfmMons df)
  | .error _ => []

/-- `seg_labels` (analytics.py:250-255): `zip` of the ranked cluster ids
with `["Champions", "Loyal", "At-Risk", "Low-Value"][:n_clusters]`; the zip
truncates to the shorter list. -/
def segLabelOf (df : List Event) (k : ℕ) (c : ℕ) : Option String :=
  lookupPair ((rankedSegments df k).zip (SEGMENT_LABELS.take k)) c

/-- The output rows of `compute_rfm_segments`, given the assignment list. -/
def rfmRows (df : List Event) (k : ℕ) (assign : List ℕ) : List RfmRow :=
  (List.range (sortedUsers df).length).map (fun i =>
    let u := (sortedUsers df).getD i 0
    let c := assign.getD i 0
    { user_id := u
      recency := recencyOf df u
      frequency := frequencyOf df u
      monetary := monetaryOf df u
      segment := c
      segment_label := segLabelOf df k c })

/-- `compute_rfm_segments` (analytics.py:222-257). -/
def compute_rfm_segments (df : List Event) (k : ℕ) :
    Except PyError (List RfmRow) :=
  match rfmAssignments df k with
  | .error e => .error e
  | .ok assign => .ok (rfmRows df k assign)

/-- numpy's ambient random stream threaded through a clustering call:
`random_state = some s` seeds a fresh generator and leaves the ambient
stream untouched (the code always passes the literal 42), while
`random_state = none` would consume and advance the ambient stream. -/
def fitPredictWithState (random_state : Option ℕ) (g : ℕ) (k : ℕ)
    (pts : List (ℚ × ℚ × ℚ)) (w : ℚ × ℚ × ℚ) :
    Except PyError (List ℕ) × ℕ :=
  match random_state with
  | some s => (kmeansFitPredict s k pts w, g)
  | none => (kmeansFitPredict g k pts w, lcg g)

/-- `compute_rfm_segments` with the ambient random stream made explicit:
the call passes `random_state=42`, so the stream `g` is read or advanced
only as `fitPredictWithState` dictates. -/
def compute_rfm_segmentsS (df : List Event) (k : ℕ) (g : ℕ) :
    Except PyError (List RfmRow) × ℕ :=
  let r := fitPredictWithState (some 42) g k (rfmPts df) (rfmW df)
  (match r.1 with
    | .error e => .error e
    | .ok assign => .ok (rfmRows df k assign), r.2)

/-- Event-literal helper (constant device/channel attributes). -/
def mkEv (u : ℕ) (d : ℤ) (t : String) (r : ℚ) (g : String) (s : ℤ) : Event :=
  { user_id := u, event_date := d, event_type := t, revenue := r
    device_type := "desktop", acquisition_channel := "organic"
    experiment_group := g, signup_date := s }

/-- Spec Scenario A: three users, each with only a signup event on day 1. -/
def scenarioA : List Event :=
  [mkEv 1 1 "signup" 0 "A" 1, mkEv 2 1 "signup" 0 "A" 1,
   mkEv 3 1 "signup" 0 "B" 1]

/-- A two-user log reaching every funnel step (user 1 completes the funnel,
user 2 stops after login). -/
def dfFunnelW : List Event :=
  [mkEv 1 1 "signup" 0 "A" 1, mkEv 1 2 "login" 0 "A" 1,
   mkEv 1 3 "view_product" 0 "A" 1, mkEv 1 4 "add_to_cart" 0 "A" 1,
   mkEv 1 5 "purchase" 49 "A" 1,
   mkEv 2 1 "signup" 0 "B" 1, mkEv 2 2 "login" 0 "B" 1]

/-- A one-user log satisfying the data invariants (signup on day 5). -/
def dfCohortW : List Event :=
  [mkEv 1 5 "signup" 0 "A" 5, mkEv 1 7 "login" 0 "A" 5]

/-- Both experiment groups non-empty; group A never converts, group B does. -/
def dfAbZero : List Event :=
  [mkEv 1 1 "signup" 0 "A" 1, mkEv 2 1 "signup" 0 "B" 1,
   mkEv 2 3 "purchase" 50 "B" 1]

/-- Both experiment groups non-empty and both convert. -/
def dfAbPos : List Event :=
  [mkEv 1 1 "signup" 0 "A" 1, mkEv 1 2 "purchase" 30 "A" 1,
   mkEv 2 1 "signup" 0 "B" 1, mkEv 2 3 "purchase" 50 "B" 1]

/-- A single-user log (fewer users than the default 4 clusters). -/
def dfOneUser : List Event := [mkEv 1 1 "signup" 0 "A" 1]

/-- A five-user log (enough users for 5 clusters). -/
def dfFiveUsers : List Event :=
  [mkEv 1 1 "signup" 0 "A" 1, mkEv 2 1 "signup" 0 "A" 1,
   mkEv 3 1 "signup" 0 "B" 1, mkEv 4 1 "signup" 0 "B" 1,
   mkEv 5 1 "signup" 0 "A" 1, mkEv 5 2 "purchase" 120 "A" 1]

instance exceptDecEq {ε α : Type} [DecidableEq ε] [DecidableEq α] :
    DecidableEq (Except ε α) := fun a b =>
  match a, b with
  | .error e, .error f =>
    if h : e = f then isTrue (by rw [h])
    else isFalse (fun hh => h (Except.error.inj hh))
  | .error _, .ok _ => isFalse (fun hh => Except.noConfusion hh)
  | .ok _, .error _ => isFalse (fun hh => Except.noConfusion hh)
  | .ok x, .ok y =>
    if h : x = y then isTrue (by rw [h])
    else isFalse (fun hh => h (Except.ok.inj hh))

/-- First position of `c` in the list (list length if absent): the rank of a
cluster id in the ranked cluster list. -/
def firstIdx : List ℕ → ℕ → ℕ
  | [], _ => 0
  | x :: xs, c => if x = c then 0 else firstIdx xs c + 1

/-! ## Helper theorems -/

/-- `nuniq` agrees with the finite-set cardinality of the list's elements. -/
theorem nuniq_eq_card_toFinset {α : Type} [DecidableEq α] (l : List α) :
    nuniq l = l.toFinset.card := (List.card_toFinset l).symm

theorem roundHalfEven_intCast (n : ℤ) : roundHalfEven (n : ℚ) = n := by
  simp [roundHalfEven]

/-- Rounding to one decimal is the identity on multiples of `1/10`. -/
theorem round1_tenth (m : ℤ) : round1 ((m : ℚ) / 10) = (m : ℚ) / 10 := by
  have h : ((m : ℚ) / 10) * 10 = (m : ℚ) := by ring
  rw [round1, h, roundHalfEven_intCast]

theorem minD_eq_none_iff (l : List ℤ) : minD l = none ↔ l = [] := by
  cases l with
  | nil => simp [minD]
  | cons x xs =>
    simp only [minD]
    cases minD xs <;> simp

theorem maxD_eq_none_iff (l : List ℤ) : maxD l = none ↔ l = [] := by
  cases l with
  | nil => simp [maxD]
  | cons x xs =>
    simp only [maxD]
    cases maxD xs <;> simp

theorem minD_mem {l : List ℤ} {a : ℤ} (h : minD l = some a) : a ∈ l := by
  induction l generalizing a with
  | nil => simp [minD] at h
  | cons x xs ih =>
    simp only [minD] at h
    cases hm : minD xs with
    | none => rw [hm] at h; simp at h; simp [h]
    | some m =>
      rw [hm] at h
      simp at h
      rcases min_choice x m with hc | hc
      · rw [hc] at h; simp [← h]
      · rw [hc] at h; right; exact h ▸ ih hm

theorem minD_le {l : List ℤ} {a : ℤ} (h : minD l = some a) :
    ∀ x ∈ l, a ≤ x := by
  induction l generalizing a with
  | nil => simp [minD] at h
  | cons y ys ih =>
    simp only [minD] at h
    cases hm : minD ys with
    | none =>
      rw [hm] at h
      have : ys = [] := (minD_eq_none_iff ys).mp hm
      subst this
      simp at h
      simp [h]
    | some m =>
      rw [hm] at h
      simp at h
      intro x hx
      rcases List.mem_cons.mp hx with hx | hx
      · subst hx; rw [← h]; exact min_le_left _ _
      · calc a ≤ m := h ▸ min_le_right _ _
             _ ≤ x := ih hm x hx

theorem maxD_mem {l : List ℤ} {a : ℤ} (h : maxD l = some a) : a ∈ l := by
  induction l generalizing a with
  | nil => simp [maxD] at h
  | cons x xs ih =>
    simp only [maxD] at h
    cases hm : maxD xs with
    | none => rw [hm] at h; simp at h; simp [h]
    | some m =>
      rw [hm] at h
      simp at h
      rcases max_choice x m with hc | hc
      · rw [hc] at h; simp [← h]
      · rw [hc] at h; right; exact h ▸ ih hm

theorem le_maxD {l : List ℤ} {a : ℤ} (h : maxD l = some a) :
    ∀ x ∈ l, x ≤ a := by
  induction l generalizing a with
  | nil => simp [maxD] at h
  | cons y ys ih =>
    simp only [maxD] at h
    cases hm : maxD ys with
    | none =>
      rw [hm] at h
      have : ys = [] := (maxD_eq_none_iff ys).mp hm
      subst this
      simp at h
      simp [h]
    | some m =>
      rw [hm] at h
      simp at h
      intro x hx
      rcases List.mem_cons.mp hx with hx | hx
      · subst hx; rw [← h]; exact le_max_left _ _
      · calc x ≤ m := ih hm x hx
             _ ≤ a := h ▸ le_max_right _ _

theorem mem_userIds {df : List Event} {u : ℕ} :
    u ∈ userIds df ↔ ∃ e ∈ df, e.user_id = u := by
  simp [userIds, List.mem_dedup, List.mem_map, eq_comm]

theorem mem_userDates {df : List Event} {u : ℕ} {x : ℤ} :
    x ∈ userDates df u ↔ ∃ e ∈ df, e.user_id = u ∧ e.event_date = x := by
  simp only [userDates, userEvents, List.mem_map, List.mem_filter,
    decide_eq_true_eq]
  exact ⟨fun ⟨e, ⟨h1, h2⟩, h3⟩ => ⟨e, h1, h2, h3⟩,
    fun ⟨e, h1, h2, h3⟩ => ⟨e, ⟨h1, h2⟩, h3⟩⟩

theorem userDates_ne_nil {df : List Event} {u : ℕ} (hu : u ∈ userIds df) :
    userDates df u ≠ [] := by
  obtain ⟨e, he, heu⟩ := mem_userIds.mp hu
  intro hnil
  have : e.event_date ∈ userDates df u := mem_userDates.mpr ⟨e, he, heu, rfl⟩
  simp [hnil] at this

theorem userIds_length_pos {df : List Event} (h : df ≠ []) :
    0 < (userIds df).length := by
  apply List.length_pos.mpr
  intro hnil
  apply h
  unfold userIds at hnil
  exact List.map_eq_nil_iff.mp ((List.dedup_eq_nil _).mp hnil)

/-- `100 − x` is already at one decimal when `x` is, so the second
`.round(1)` in the drop-off column is the identity. -/
theorem round1_100_sub (q : ℚ) : round1 (100 - round1 q) = 100 - round1 q := by
  have h : (100 : ℚ) - round1 q = ((1000 - roundHalfEven (q * 10) : ℤ) : ℚ) / 10 := by
    rw [round1]
    push_cast
    ring
  rw [h, round1_tenth]

theorem idxmax_eq_none_iff (l : List (ℕ × ℚ)) : idxmax l = none ↔ l = [] := by
  cases l with
  | nil => simp [idxmax]
  | cons p rest =>
    simp only [idxmax]
    cases idxmax rest with
    | none => simp
    | some q =>
      constructor
      · intro h
        dsimp only at h
        split at h <;> simp_all
      · intro h
        simp at h

/-- `idxmax` splits its input into a strictly-smaller prefix, the returned
pair, and a no-larger suffix: it is the earliest maximum. -/
theorem idxmax_decomp {l : List (ℕ × ℚ)} {q : ℕ × ℚ} (h : idxmax l = some q) :
    ∃ l1 l2, l = l1 ++ q :: l2 ∧ (∀ p ∈ l1, p.2 < q.2) ∧
      (∀ p ∈ l2, p.2 ≤ q.2) := by
  induction l generalizing q with
  | nil => simp [idxmax] at h
  | cons p rest ih =>
    simp only [idxmax] at h
    cases hr : idxmax rest with
    | none =>
      rw [hr] at h
      simp at h
      have hrest : rest = [] := (idxmax_eq_none_iff rest).mp hr
      subst hrest
      exact ⟨[], [], by simp [h], by simp, by simp⟩
    | some qr =>
      rw [hr] at h
      dsimp only at h
      by_cases hlt : p.2 < qr.2
      · rw [if_pos hlt] at h
        simp at h
        subst h
        obtain ⟨l1, l2, heq, h1, h2⟩ := ih hr
        refine ⟨p :: l1, l2, by simp [heq], ?_, h2⟩
        intro x hx
        rcases List.mem_cons.mp hx with hx | hx
        · subst hx; exact hlt
        · exact h1 x hx
      · rw [if_neg hlt] at h
        simp at h
        subst h
        obtain ⟨l1, l2, heq, h1, h2⟩ := ih hr
        push_neg at hlt
        refine ⟨[], rest, by simp, by simp, ?_⟩
        intro x hx
        rw [heq] at hx
        rcases List.mem_append.mp hx with hx | hx
        · exact le_of_lt (lt_of_lt_of_le (h1 x hx) hlt)
        · rcases List.mem_cons.mp hx with hx | hx
          · subst hx; exact hlt
          · exact le_trans (h2 x hx) hlt

theorem dropCandidates_ge : ∀ (rows : List FunnelRow) (k : ℕ),
    ∀ p ∈ dropCandidates k rows, k ≤ p.1 := by
  intro rows
  induction rows with
  | nil => intro k p hp; simp [dropCandidates] at hp
  | cons r rest ih =>
    intro k p hp
    simp only [dropCandidates, List.mem_append] at hp
    rcases hp with hp | hp
    · cases hd : r.dropoff_pct with
      | some d =>
        rw [hd] at hp
        dsimp only at hp
        by_cases h1 : 1 ≤ k
        · rw [if_pos h1] at hp
          simp at hp
          simp [hp]
        · rw [if_neg h1] at hp; simp at hp
      | none => rw [hd] at hp; simp at hp
    · exact le_trans (Nat.le_succ k) (ih (k + 1) p hp)

theorem dropCandidates_pairwise : ∀ (rows : List FunnelRow) (k : ℕ),
    (dropCandidates k rows).Pairwise (fun p q => p.1 < q.1) := by
  intro rows
  induction rows with
  | nil => intro k; simp [dropCandidates]
  | cons r rest ih =>
    intro k
    simp only [dropCandidates]
    apply List.pairwise_append.mpr
    refine ⟨?_, ih (k + 1), ?_⟩
    · cases r.dropoff_pct with
      | some d =>
        by_cases h1 : 1 ≤ k
        · simp [if_pos h1]
        · simp [if_neg h1]
      | none => simp
    · intro a ha b hb
      have hbk := dropCandidates_ge rest (k + 1) b hb
      cases hd : r.dropoff_pct with
      | some d =>
        rw [hd] at ha
        dsimp only at ha
        by_cases h1 : 1 ≤ k
        · rw [if_pos h1] at ha
          simp at ha
          simp [ha]
          omega
        · rw [if_neg h1] at ha; simp at ha
      | none => rw [hd] at ha; simp at ha

theorem mem_dropCandidates : ∀ (rows : List FunnelRow) (k j : ℕ) (d : ℚ),
    ((k + j, d) ∈ dropCandidates k rows ↔
      1 ≤ k + j ∧ ∃ row, rows.get? j = some row ∧
        row.dropoff_pct = some d) := by
  intro rows
  induction rows with
  | nil => intro k j d; simp [dropCandidates]
  | cons r rest ih =>
    intro k j d
    simp only [dropCandidates, List.mem_append]
    cases j with
    | zero =>
      simp only [Nat.add_zero, List.get?]
      constructor
      · rintro (hp | hp)
        · cases hd : r.dropoff_pct with
          | some d0 =>
            rw [hd] at hp
            dsimp only at hp
            by_cases h1 : 1 ≤ k
            · rw [if_pos h1] at hp
              simp at hp
              exact ⟨h1, r, rfl, by rw [hd, hp]⟩
            · rw [if_neg h1] at hp; simp at hp
          | none => rw [hd] at hp; simp at hp
        · have := dropCandidates_ge rest (k + 1) _ hp
          simp at this
      · rintro ⟨h1, row, hrow, hdrop⟩
        left
        have hr : r.dropoff_pct = some d := by
          cases hrow
          exact hdrop
        rw [hr]
        dsimp only
        rw [if_pos h1]
        simp
    | succ j' =>
      have harith : k + (j' + 1) = (k + 1) + j' := by omega
      rw [harith]
      constructor
      · rintro (hp | hp)
        · cases hd : r.dropoff_pct with
          | some d0 =>
            rw [hd] at hp
            dsimp only at hp
            by_cases h1 : 1 ≤ k
            · rw [if_pos h1] at hp
              simp at hp
              omega
            · rw [if_neg h1] at hp; simp at hp
          | none => rw [hd] at hp; simp at hp
        · obtain ⟨h1, row, hrow, hdrop⟩ := (ih (k + 1) j' d).mp hp
          exact ⟨by omega, row, by simpa [List.get?] using hrow, hdrop⟩
      · rintro ⟨h1, row, hrow, hdrop⟩
        right
        apply (ih (k + 1) j' d).mpr
        exact ⟨by omega, row, by simpa [List.get?] using hrow, hdrop⟩

theorem firstIdx_le_of_get :
    ∀ (l : List ℕ) (c j : ℕ) (h : j < l.length),
      l.get ⟨j, h⟩ = c → firstIdx l c ≤ j := by
  intro l
  induction l with
  | nil => intro c j h; simp at h
  | cons x xs ih =>
    intro c j h hget
    cases j with
    | zero =>
      simp at hget
      simp [firstIdx, hget]
    | succ j' =>
      simp only [List.get_cons_succ] at hget
      simp only [firstIdx]
      split
      · omega
      · have := ih c j' (by simpa using h) hget
        omega

theorem lookupPair_zip_none :
    ∀ (l1 : List ℕ) (l2 : List String) (c : ℕ),
      (∀ j (h1 : j < l1.length), j < l2.length → l1.get ⟨j, h1⟩ ≠ c) →
      lookupPair (l1.zip l2) c = none := by
  intro l1
  induction l1 with
  | nil => intro l2 c _; simp [lookupPair]
  | cons x xs ih =>
    intro l2 c hne
    cases l2 with
    | nil => simp [lookupPair]
    | cons y ys =>
      simp only [List.zip_cons_cons, lookupPair]
      rw [if_neg (by simpa using hne 0 (by simp) (by simp))]
      apply ih
      intro j h1 h2
      exact hne (j + 1) (by simpa using h1) (by simpa using h2)

theorem lookupPair_mem_snd :
    ∀ (ps : List (ℕ × String)) (c : ℕ) (s : String),
      lookupPair ps c = some s → s ∈ ps.map (·.2) := by
  intro ps
  induction ps with
  | nil => intro c s h; simp [lookupPair] at h
  | cons p rest ih =>
    intro c s h
    simp only [lookupPair] at h
    split at h
    · simp at h
      simp [← h]
    · simp only [List.map_cons, List.mem_cons]
      exact Or.inr (ih c s h)

/-! ## Claim theorems -/

/-- C2 (amended): on every collection with zero distinct users (in
particular the empty one), `compute_conversion_rate` fails — with Python's
built-in `ZeroDivisionError`, since the code defines no `EmptyInputError`
class — and never returns 0, NaN, or any other value. -/
theorem conversion_rate_zero_users (df : List Event)
    (h : nuniq (df.map (·.user_id)) = 0) :
    compute_conversion_rate df = .error .zeroDivisionError := by
  simp only [compute_conversion_rate, h, if_pos]

/-- C2 witness: the empty collection has zero distinct users, so the
conversion rate fails with `ZeroDivisionError`. -/
theorem conversion_rate_zero_users_witness :
    compute_conversion_rate [] = .error .zeroDivisionError :=
  conversion_rate_zero_users [] (by decide)

/-- C2 counterexample: on the empty collection the failure is not an
`EmptyInputError` (no such class exists in the code); it is the built-in
`ZeroDivisionError`. -/
theorem conversion_rate_counterexample :
    compute_conversion_rate [] ≠ .error .emptyInputError ∧
    compute_conversion_rate [] = .error .zeroDivisionError := by
  refine ⟨?_, by decide⟩
  decide

/-- C5: on every non-empty collection, `compute_retention_rate` is the
share of retained users: the retained predicate holds for a user exactly
when two of their events lie at least `days` apart (equivalently, their
`max(event_date) − min(event_date)` gap reaches the horizon), and a user
all of whose events — e.g. only the signup — share a single date is not
retained for any positive horizon. -/
theorem retention_rate_spec (df : List Event) (days : ℤ) (h : df ≠ []) :
    0 < (userIds df).length ∧
    compute_retention_rate df days =
      (((userIds df).filter (retainedB df days)).length : ℚ) /
        ((userIds df).length : ℚ) * 100 ∧
    (∀ u ∈ userIds df, (retainedB df days u = true ↔
      ∃ e1 ∈ df, ∃ e2 ∈ df, e1.user_id = u ∧ e2.user_id = u ∧
        days ≤ e2.event_date - e1.event_date)) ∧
    (∀ u ∈ userIds df,
      (∀ e1 ∈ df, e1.user_id = u → ∀ e2 ∈ df, e2.user_id = u →
        e1.event_date = e2.event_date) →
      0 < days → retainedB df days u = false) := by
  refine ⟨userIds_length_pos h, rfl, ?_, ?_⟩
  · intro u hu
    obtain ⟨a, hmin⟩ := Option.ne_none_iff_exists'.mp
      (fun hn => userDates_ne_nil hu ((minD_eq_none_iff _).mp hn))
    obtain ⟨b, hmax⟩ := Option.ne_none_iff_exists'.mp
      (fun hn => userDates_ne_nil hu ((maxD_eq_none_iff _).mp hn))
    unfold retainedB
    rw [hmin, hmax]
    simp only [decide_eq_true_eq]
    constructor
    · intro hg
      obtain ⟨e1, he1, hu1, hd1⟩ := mem_userDates.mp (minD_mem hmin)
      obtain ⟨e2, he2, hu2, hd2⟩ := mem_userDates.mp (maxD_mem hmax)
      exact ⟨e1, he1, e2, he2, hu1, hu2, by rw [hd1, hd2]; exact hg⟩
    · rintro ⟨e1, he1, e2, he2, hu1, hu2, hd⟩
      have h1 : a ≤ e1.event_date :=
        minD_le hmin _ (mem_userDates.mpr ⟨e1, he1, hu1, rfl⟩)
      have h2 : e2.event_date ≤ b :=
        le_maxD hmax _ (mem_userDates.mpr ⟨e2, he2, hu2, rfl⟩)
      omega
  · intro u hu hsame hd
    obtain ⟨a, hmin⟩ := Option.ne_none_iff_exists'.mp
      (fun hn => userDates_ne_nil hu ((minD_eq_none_iff _).mp hn))
    obtain ⟨b, hmax⟩ := Option.ne_none_iff_exists'.mp
      (fun hn => userDates_ne_nil hu ((maxD_eq_none_iff _).mp hn))
    unfold retainedB
    rw [hmin, hmax]
    obtain ⟨e1, he1, hu1, hd1⟩ := mem_userDates.mp (minD_mem hmin)
    obtain ⟨e2, he2, hu2, hd2⟩ := mem_userDates.mp (maxD_mem hmax)
    have hab : b = a := by
      rw [← hd1, ← hd2]
      exact hsame e2 he2 hu2 e1 he1 hu1
    simp only [decide_eq_false_iff_not]
    omega

/-- C5 witness: spec Scenario A (three users with only a signup each) has a
positive user count and the retained/total rate formula. -/
theorem retention_rate_spec_witness :
    compute_retention_rate scenarioA 30 =
      (((userIds scenarioA).filter (retainedB scenarioA 30)).length : ℚ) /
        ((userIds scenarioA).length : ℚ) * 100 :=
  (retention_rate_spec scenarioA 30 (by decide)).2.1

/-- C6: on every non-empty collection, `compute_churn_rate` is the share of
churned users among all distinct users; a user is churned exactly when
every one of their events lies at least `inactive_days` before the
reference date — the maximal `event_date` of the collection, never the
wall clock (the rate is a function of the collection alone); and when every
user has an event on the reference date itself the churn rate is 0 for any
positive `inactive_days`. -/
theorem churn_rate_spec (df : List Event) (d : ℤ) (h : df ≠ []) :
    0 < (userIds df).length ∧
    compute_churn_rate df d =
      (((userIds df).filter (churnedB df d)).length : ℚ) /
        ((userIds df).length : ℚ) * 100 ∧
    (∀ r, maxD (df.map (·.event_date)) = some r →
      ∀ u ∈ userIds df, (churnedB df d u = true ↔
        ∀ e ∈ df, e.user_id = u → d ≤ r - e.event_date)) ∧
    (0 < d →
      (∀ u ∈ userIds df, ∃ e ∈ df, e.user_id = u ∧
        maxD (df.map (·.event_date)) = some e.event_date) →
      compute_churn_rate df d = 0) := by
  have hlen : nuniq (df.map (·.user_id)) = (userIds df).length := rfl
  refine ⟨userIds_length_pos h, rfl, ?_, ?_⟩
  · intro r hr u hu
    obtain ⟨b, hmax⟩ := Option.ne_none_iff_exists'.mp
      (fun hn => userDates_ne_nil hu ((maxD_eq_none_iff _).mp hn))
    unfold churnedB
    rw [hr, hmax]
    simp only [decide_eq_true_eq]
    constructor
    · intro hg e he heu
      have : e.event_date ≤ b :=
        le_maxD hmax _ (mem_userDates.mpr ⟨e, he, heu, rfl⟩)
      omega
    · intro hall
      obtain ⟨e, he, heu, hed⟩ := mem_userDates.mp (maxD_mem hmax)
      have := hall e he heu
      omega
  · intro hd hall
    have hfil : (userIds df).filter (churnedB df d) = [] := by
      rw [List.filter_eq_nil_iff]
      intro u hu
      obtain ⟨e, he, heu, hr⟩ := hall u hu
      obtain ⟨b, hmax⟩ := Option.ne_none_iff_exists'.mp
        (fun hn => userDates_ne_nil hu ((maxD_eq_none_iff _).mp hn))
      unfold churnedB
      rw [hr, hmax]
      have h1 : e.event_date ≤ b :=
        le_maxD hmax _ (mem_userDates.mpr ⟨e, he, heu, rfl⟩)
      have h2 : b ≤ e.event_date := by
        refine le_maxD hr _ ?_
        rcases mem_userDates.mp (maxD_mem hmax) with ⟨e2, he2, -, hd2⟩
        exact hd2 ▸ List.mem_map.mpr ⟨e2, he2, rfl⟩
      simp only [decide_eq_true_eq]
      omega
    rw [compute_churn_rate, hfil]
    simp

/-- C6 witness: spec Scenario A — three users whose only event is a signup
on the same day — has churn rate 0 at the 60-day horizon. -/
theorem churn_rate_spec_witness : compute_churn_rate scenarioA 60 = 0 :=
  (churn_rate_spec scenarioA 60 (by decide)).2.2.2 (by decide) (by decide)

/-- C1: for every input collection, the funnel table has the five fixed
steps in order; the reach of step `i` is the number of distinct users with
at least one event of that type anywhere in the collection (any-occurrence
semantics); row 0 carries `conversion_from_prev = 100.0` and
`dropoff_pct = 0.0` regardless of input; and for `i ≥ 1` (denominators
positive, as the claim's formulas presuppose)
`conversion_from_prev[i] = reach[i]/reach[i−1]×100` rounded to 1 decimal,
`dropoff_pct[i] = 100 − conversion_from_prev[i]`, and
`conversion_from_top[i] = reach[i]/reach[0]×100` rounded to 1 decimal. -/
theorem funnel_spec (df : List Event) (i : ℕ) (hi : i < 5) :
    (compute_funnel df).length = 5 ∧
    ((compute_funnel df).getD i default).step = FUNNEL_STEPS.getD i "" ∧
    ((compute_funnel df).getD i default).users =
      ((df.filter (fun e => e.event_type = FUNNEL_STEPS.getD i "")).map
        (·.user_id)).toFinset.card ∧
    (((compute_funnel df).getD 0 default).conversion_from_prev = some 100 ∧
      ((compute_funnel df).getD 0 default).dropoff_pct = some 0) ∧
    (1 ≤ i → 0 < stepUsers df (FUNNEL_STEPS.getD (i - 1) "") →
      ((compute_funnel df).getD i default).conversion_from_prev =
        some (round1 ((stepUsers df (FUNNEL_STEPS.getD i "") : ℚ) /
          (stepUsers df (FUNNEL_STEPS.getD (i - 1) "") : ℚ) * 100)) ∧
      ((compute_funnel df).getD i default).dropoff_pct =
        some (100 - round1 ((stepUsers df (FUNNEL_STEPS.getD i "") : ℚ) /
          (stepUsers df (FUNNEL_STEPS.getD (i - 1) "") : ℚ) * 100))) ∧
    (0 < stepUsers df "signup" →
      ((compute_funnel df).getD i default).conversion_from_top =
        some (round1 ((stepUsers df (FUNNEL_STEPS.getD i "") : ℚ) /
          (stepUsers df "signup" : ℚ) * 100))) := by
  have hps : ∀ a b : ℕ, 0 < b →
      pctOfDiv a b = some (round1 ((a : ℚ) / (b : ℚ) * 100)) := by
    intro a b hb
    rw [pctOfDiv, if_neg hb.ne']
  have hpd : ∀ a b : ℕ, 0 < b →
      (pctOfDiv a b).map (fun x => round1 (100 - x)) =
        some (100 - round1 ((a : ℚ) / (b : ℚ) * 100)) := by
    intro a b hb
    have hmap : (some (round1 ((a : ℚ) / (b : ℚ) * 100))).map
        (fun x => round1 (100 - x)) =
        some (round1 (100 - round1 ((a : ℚ) / (b : ℚ) * 100))) := rfl
    rw [hps a b hb, hmap, round1_100_sub]
  interval_cases i <;>
    refine ⟨rfl, rfl, nuniq_eq_card_toFinset _, ⟨rfl, rfl⟩, ?_, ?_⟩
  · exact fun h1 => absurd h1 (by decide)
  · exact fun h0 => hps _ _ h0
  · exact fun _ hprev => ⟨hps _ _ hprev, hpd _ _ hprev⟩
  · exact fun h0 => hps _ _ h0
  · exact fun _ hprev => ⟨hps _ _ hprev, hpd _ _ hprev⟩
  · exact fun h0 => hps _ _ h0
  · exact fun _ hprev => ⟨hps _ _ hprev, hpd _ _ hprev⟩
  · exact fun h0 => hps _ _ h0
  · exact fun _ hprev => ⟨hps _ _ hprev, hpd _ _ hprev⟩
  · exact fun h0 => hps _ _ h0

/-- C1 witness: on a concrete two-user log reaching every step, row 1's
percentage columns are the rounded division formulas. -/
theorem funnel_spec_witness :
    ((compute_funnel dfFunnelW).getD 1 default).conversion_from_prev =
      some (round1 ((stepUsers dfFunnelW (FUNNEL_STEPS.getD 1 "") : ℚ) /
        (stepUsers dfFunnelW (FUNNEL_STEPS.getD 0 "") : ℚ) * 100)) ∧
    ((compute_funnel dfFunnelW).getD 1 default).dropoff_pct =
      some (100 - round1 ((stepUsers dfFunnelW (FUNNEL_STEPS.getD 1 "") : ℚ) /
        (stepUsers dfFunnelW (FUNNEL_STEPS.getD 0 "") : ℚ) * 100)) :=
  (funnel_spec dfFunnelW 1 (by decide)).2.2.2.2.1 (by decide) (by decide)

/-- C10: for `k > 4` requested clusters, the rank-to-label dict pairs the
monetary-ranked clusters with only the four fixed labels (the `zip`
truncates): a successful run yields a result (no error is raised when
enough users exist), every assigned label comes from the fixed four-label
list (no generic `Segment-N` label is generated), and every user whose
cluster ranks fifth or later receives a missing (`none`) segment label. -/
theorem rfm_label_truncation (df : List Event) (k : ℕ) (h4 : 4 < k) :
    (k ≤ nuniq (df.map (·.user_id)) →
      ∃ rows, compute_rfm_segments df k = .ok rows) ∧
    (∀ rows, compute_rfm_segments df k = .ok rows → ∀ r ∈ rows,
      (∀ s, r.segment_label = some s → s ∈ SEGMENT_LABELS) ∧
      (4 ≤ firstIdx (rankedSegments df k) r.segment →
        r.segment_label = none)) := by
  constructor
  · intro hk
    have hlen : (rfmPts df).length = nuniq (df.map (·.user_id)) := by
      simp [rfmPts, sortedUsers, userIds, nuniq]
    unfold compute_rfm_segments rfmAssignments kmeansFitPredict
    rw [hlen, if_neg (by omega)]
    exact ⟨_, rfl⟩
  · intro rows hok r hr
    have hlbl : r.segment_label = segLabelOf df k r.segment := by
      unfold compute_rfm_segments at hok
      cases hass : rfmAssignments df k with
      | error e => rw [hass] at hok; exact absurd hok (by simp)
      | ok assign =>
        rw [hass] at hok
        simp only [Except.ok.injEq] at hok
        subst hok
        simp only [rfmRows, List.mem_map] at hr
        obtain ⟨i, _, hrec⟩ := hr
        rw [← hrec]
    constructor
    · intro s hs
      rw [hlbl] at hs
      unfold segLabelOf at hs
      have hmem := lookupPair_mem_snd _ _ _ hs
      obtain ⟨p, hp, hps⟩ := List.mem_map.mp hmem
      have := (List.of_mem_zip hp).2
      exact List.take_subset k SEGMENT_LABELS (hps ▸ this)
    · intro hrank
      rw [hlbl]
      unfold segLabelOf
      apply lookupPair_zip_none
      intro j h1 h2 hc
      have hj4 : j < 4 := by
        have : (SEGMENT_LABELS.take k).length = 4 := by
          simp only [List.length_take, SEGMENT_LABELS]
          simp
          omega
        omega
      have := firstIdx_le_of_get _ r.segment j h1 hc
      omega

/-- C10 witness: five distinct users and `k = 5` (> 4) — the run succeeds
and returns rows. -/
theorem rfm_label_truncation_witness :
    ∃ rows, compute_rfm_segments dfFiveUsers 5 = .ok rows :=
  (rfm_label_truncation dfFiveUsers 5 (by decide)).1 (by decide)

/-- C9: whenever the dashboard's bottleneck selection returns a step, that
step has index ≥ 1 (row 0 excluded), carries the maximal `dropoff_pct`
among all rows of index ≥ 1, and every earlier candidate row has a strictly
smaller drop-off (first-occurrence tie-break); and on spec Scenario C
(reach `[100, 80, 40, 20, 10]`) `conversion_from_prev` is
`[100.0, 80.0, 50.0, 50.0, 50.0]`, `dropoff_pct` is
`[0.0, 20.0, 50.0, 50.0, 50.0]`, and the bottleneck is index 2
(`view_product`). -/
theorem bottleneck_spec :
    (∀ rows : List FunnelRow, ∀ j, bottleneck rows = some j →
      1 ≤ j ∧ ∃ hj : j < rows.length, ∃ d,
        (rows.get ⟨j, hj⟩).dropoff_pct = some d ∧
        (∀ i, 1 ≤ i → ∀ hi : i < rows.length, ∀ d2,
          (rows.get ⟨i, hi⟩).dropoff_pct = some d2 → d2 ≤ d) ∧
        (∀ i, 1 ≤ i → i < j → ∀ hi : i < rows.length, ∀ d2,
          (rows.get ⟨i, hi⟩).dropoff_pct = some d2 → d2 < d)) ∧
    (funnelTable SCENARIO_C).map (·.conversion_from_prev) =
      [some 100, some 80, some 50, some 50, some 50] ∧
    (funnelTable SCENARIO_C).map (·.dropoff_pct) =
      [some 0, some 20, some 50, some 50, some 50] ∧
    bottleneck (funnelTable SCENARIO_C) = some 2 := by
  refine ⟨?_, ?_, ?_, ?_⟩
  · intro rows j hbn
    rw [bottleneck] at hbn
    obtain ⟨q, hq, hq1⟩ := Option.map_eq_some'.mp hbn
    obtain ⟨l1, l2, heq, hl1, hl2⟩ := idxmax_decomp hq
    have hqmem : q ∈ dropCandidates 0 rows := by
      rw [heq]
      exact List.mem_append_right l1 (List.mem_cons_self q l2)
    have hqchar := (mem_dropCandidates rows 0 q.1 q.2).mp (by simpa using hqmem)
    obtain ⟨hq1le, row, hrow, hdrop⟩ := hqchar
    subst hq1
    obtain ⟨hjlt, hget⟩ := List.get?_eq_some.mp hrow
    have hmemOf : ∀ i (hii : i < rows.length) (d2 : ℚ), 1 ≤ i →
        (rows.get ⟨i, hii⟩).dropoff_pct = some d2 →
        (i, d2) ∈ dropCandidates 0 rows := by
      intro i hii d2 hi1 hd2
      have := (mem_dropCandidates rows 0 i d2).mpr
        ⟨by simpa using hi1, rows.get ⟨i, hii⟩, List.get?_eq_get hii, hd2⟩
      simpa using this
    refine ⟨by simpa using hq1le, hjlt, q.2, by rw [hget]; exact hdrop, ?_, ?_⟩
    · intro i hi1 hii d2 hd2
      have hmem := hmemOf i hii d2 hi1 hd2
      rw [heq] at hmem
      rcases List.mem_append.mp hmem with hm | hm
      · exact le_of_lt (hl1 _ hm)
      · rcases List.mem_cons.mp hm with hm | hm
        · exact le_of_eq (congrArg Prod.snd hm)
        · exact hl2 _ hm
    · intro i hi1 hij hii d2 hd2
      have hpw := dropCandidates_pairwise rows 0
      rw [heq] at hpw
      obtain ⟨pw1, pw2, hcross⟩ := List.pairwise_append.mp hpw
      have hqlt : ∀ b ∈ l2, q.1 < b.1 := (List.pairwise_cons.mp pw2).1
      have hmem := hmemOf i hii d2 hi1 hd2
      rw [heq] at hmem
      rcases List.mem_append.mp hmem with hm | hm
      · exact hl1 _ hm
      · rcases List.mem_cons.mp hm with hm | hm
        · exact absurd (congrArg Prod.fst hm) (by simpa using hij.ne)
        · exact absurd (hqlt _ hm) (by simp; omega)
  · norm_num [funnelTable, SCENARIO_C, FUNNEL_STEPS, pctOfDiv, round1,
      roundHalfEven, List.range_succ]
  · norm_num [funnelTable, SCENARIO_C, FUNNEL_STEPS, pctOfDiv, round1,
      roundHalfEven, List.range_succ]
  · norm_num [bottleneck, funnelTable, SCENARIO_C, FUNNEL_STEPS, pctOfDiv,
      round1, roundHalfEven, List.range_succ, dropCandidates, idxmax]

/-- C9 witness: the Scenario C funnel table instantiates the bottleneck
characterization at index 2. -/
theorem bottleneck_spec_witness :
    1 ≤ 2 ∧ ∃ hj : 2 < (funnelTable SCENARIO_C).length, ∃ d,
      ((funnelTable SCENARIO_C).get ⟨2, hj⟩).dropoff_pct = some d ∧
      (∀ i, 1 ≤ i → ∀ hi : i < (funnelTable SCENARIO_C).length, ∀ d2,
        ((funnelTable SCENARIO_C).get ⟨i, hi⟩).dropoff_pct = some d2 →
          d2 ≤ d) ∧
      (∀ i, 1 ≤ i → i < 2 → ∀ hi : i < (funnelTable SCENARIO_C).length,
        ∀ d2, ((funnelTable SCENARIO_C).get ⟨i, hi⟩).dropoff_pct = some d2 →
          d2 < d) :=
  bottleneck_spec.1 (funnelTable SCENARIO_C) 2 (by
    norm_num [bottleneck, funnelTable, SCENARIO_C, FUNNEL_STEPS, pctOfDiv,
      round1, roundHalfEven, List.range_succ, dropCandidates, idxmax])

/-- C4: under the data-model invariants — `signup_date` is constant across
a user's events, and every user has a signup event whose `event_date`
equals their `signup_date` — every cohort month `m` with a positive cohort
size has retention `100.0` in period 0 of the cohort matrix, for any
calendar-month assignment `monthOf`. -/
theorem cohort_retention_m0 (monthOf : ℤ → ℤ) (df : List Event) (m : ℤ)
    (hconst : ∀ e1 ∈ df, ∀ e2 ∈ df, e1.user_id = e2.user_id →
      e1.signup_date = e2.signup_date)
    (hsign : ∀ e ∈ df, ∃ s ∈ df, s.user_id = e.user_id ∧
      s.event_type = "signup" ∧ s.event_date = s.signup_date)
    (hm : 0 < cohortSize monthOf df m) :
    retentionCell monthOf df m 0 = some 100 := by
  have hAS : activeUsers monthOf df m 0 = cohortSize monthOf df m := by
    rw [activeUsers, cohortSize, nuniq_eq_card_toFinset, nuniq_eq_card_toFinset]
    congr 1
    ext u
    simp only [List.mem_toFinset, List.mem_map, List.mem_filter, signupEvents,
      decide_eq_true_eq]
    constructor
    · rintro ⟨e, ⟨he, hm1, _⟩, hu⟩
      obtain ⟨s, hs, hsu, hst, _⟩ := hsign e he
      have hss : s.signup_date = e.signup_date := hconst s hs e he (by rw [hsu])
      exact ⟨s, ⟨⟨hs, hst⟩, by rw [hss]; exact hm1⟩, by rw [hsu, hu]⟩
    · rintro ⟨e, ⟨⟨he, _⟩, hm1⟩, hu⟩
      obtain ⟨s, hs, hsu, _, hsd⟩ := hsign e he
      have hss : s.signup_date = e.signup_date := hconst s hs e he (by rw [hsu])
      refine ⟨s, ⟨hs, ?_, ?_⟩, by rw [hsu, hu]⟩
      · rw [hss]; exact hm1
      · rw [hsd, sub_self]
  rw [retentionCell, if_pos ⟨le_refl (0 : ℤ), hAS ▸ hm, hm⟩, hAS]
  have hc : ((cohortSize monthOf df m : ℚ)) ≠ 0 := Nat.cast_ne_zero.mpr hm.ne'
  rw [div_self hc, one_mul]
  have h100 : (100 : ℚ) = ((1000 : ℤ) : ℚ) / 10 := by norm_num
  rw [h100, round1_tenth]

/-- C4 witness: a single-user log satisfying the invariants, with the
identity month assignment: the signup-month cohort retains 100% at M0. -/
theorem cohort_retention_m0_witness :
    retentionCell id dfCohortW 5 0 = some 100 :=
  cohort_retention_m0 id dfCohortW 5 (by decide) (by decide) (by decide)

/-- C3 (amended): with both experiment groups non-empty, zero conversions
in group A do not make the A/B computation fail: numpy float division
silently yields `lift_pct = +∞` whenever group B has at least one
conversion (the code defines no `DivisionByZeroError`); and whenever group
A has at least one conversion (`rate_a > 0`) the returned `lift_pct` is the
finite value `(rate_b − rate_a) / rate_a × 100`. -/
theorem ab_test_lift (df : List Event)
    (hA : 0 < abGroupSize df "A") (hB : 0 < abGroupSize df "B") :
    (abConvCount df "A" = 0 → 0 < abConvCount df "B" →
      (compute_ab_test df).lift_pct = NpFloat.inf) ∧
    (0 < abConvCount df "A" →
      (compute_ab_test df).lift_pct = NpFloat.fin
        (((abConvCount df "B" : ℚ) / (abGroupSize df "B" : ℚ) -
            (abConvCount df "A" : ℚ) / (abGroupSize df "A" : ℚ)) /
          ((abConvCount df "A" : ℚ) / (abGroupSize df "A" : ℚ)) * 100)) := by
  have hA' : ((abGroupSize df "A" : ℚ)) ≠ 0 := Nat.cast_ne_zero.mpr hA.ne'
  have hB' : ((abGroupSize df "B" : ℚ)) ≠ 0 := Nat.cast_ne_zero.mpr hB.ne'
  constructor
  · intro h0 hb
    have hb' : (0 : ℚ) < (abConvCount df "B" : ℚ) / (abGroupSize df "B" : ℚ) :=
      div_pos (by exact_mod_cast hb) (by exact_mod_cast hB)
    simp only [compute_ab_test, npDiv, if_neg hA', if_neg hB', h0]
    simp [liftCalc, npDiv, npMul100, hb'.ne', hb']
  · intro ha
    have ha' : ((abConvCount df "A" : ℚ)) / (abGroupSize df "A" : ℚ) ≠ 0 := by
      refine div_ne_zero ?_ hA'
      exact_mod_cast ha.ne'
    simp only [compute_ab_test, npDiv, if_neg hA', if_neg hB']
    simp [liftCalc, npDiv, npMul100, ha']

/-- C3 witness: on `dfAbPos` (both groups non-empty, group A converts) the
lift is the finite relative-difference formula. -/
theorem ab_test_lift_witness :
    (compute_ab_test dfAbPos).lift_pct = NpFloat.fin
      (((abConvCount dfAbPos "B" : ℚ) / (abGroupSize dfAbPos "B" : ℚ) -
          (abConvCount dfAbPos "A" : ℚ) / (abGroupSize dfAbPos "A" : ℚ)) /
        ((abConvCount dfAbPos "A" : ℚ) / (abGroupSize dfAbPos "A" : ℚ)) * 100) :=
  (ab_test_lift dfAbPos (by decide) (by decide)).2 (by decide)

/-- C3 counterexample: on `dfAbZero` both groups are non-empty, group A has
zero conversions, and the A/B computation returns normally with
`lift_pct = +∞` — it does not raise any `DivisionByZeroError`. -/
theorem ab_test_lift_counterexample :
    0 < abGroupSize dfAbZero "A" ∧ 0 < abGroupSize dfAbZero "B" ∧
    abConvCount dfAbZero "A" = 0 ∧
    (compute_ab_test dfAbZero).lift_pct = NpFloat.inf := by
  refine ⟨by decide, by decide, by decide, ?_⟩
  simp only [compute_ab_test]
  rw [show abConvCount dfAbZero "A" = 0 from by decide,
    show abConvCount dfAbZero "B" = 1 from by decide,
    show abGroupSize dfAbZero "A" = 1 from by decide,
    show abGroupSize dfAbZero "B" = 1 from by decide]
  norm_num [npDiv, liftCalc, npMul100]

/-- C7: with the clustering seed fixed at 42, two consecutive invocations
of the RFM segmentation on the identical input — run with the ambient
random stream `g` threaded through — produce identical outputs (the same
per-user recency/frequency/monetary values, cluster ids and segment
labels), each equal to the pure `compute_rfm_segments`. -/
theorem rfm_deterministic (df : List Event) (k g : ℕ) :
    (compute_rfm_segmentsS df k ((compute_rfm_segmentsS df k g).2)).1 =
      (compute_rfm_segmentsS df k g).1 ∧
    (compute_rfm_segmentsS df k g).1 = compute_rfm_segments df k := by
  constructor <;>
    simp [compute_rfm_segmentsS, fitPredictWithState, compute_rfm_segments,
      rfmAssignments]

/-- C8 (amended): with fewer distinct users than requested clusters the RFM
segmentation fails — with the clustering library's `ValueError`, since the
code defines no `DegenerateClusteringError` class — and the error
propagates to the caller; no default or partial result is returned. -/
theorem rfm_degenerate (df : List Event) (k : ℕ)
    (h : nuniq (df.map (·.user_id)) < k) :
    compute_rfm_segments df k = .error .valueError := by
  have hlen : (rfmPts df).length = nuniq (df.map (·.user_id)) := by
    simp [rfmPts, sortedUsers, userIds, nuniq]
  unfold compute_rfm_segments rfmAssignments kmeansFitPredict
  rw [hlen, if_pos h]

/-- C8 witness: one user, four requested clusters. -/
theorem rfm_degenerate_witness :
    compute_rfm_segments dfOneUser 4 = .error .valueError :=
  rfm_degenerate dfOneUser 4 (by decide)

/-- C8 counterexample: with one user and `k = 4` the raised error is the
clustering library's `ValueError`, not a `DegenerateClusteringError` (which
the code never defines). -/
theorem rfm_degenerate_counterexample :
    compute_rfm_segments dfOneUser 4 ≠ .error .degenerateClusteringError ∧
    compute_rfm_segments dfOneUser 4 = .error .valueError := by
  constructor
  · decide
  · decide

end Analytics
